import Mathlib

/-!
Concurrent weather fetch (`cthreads.c`, `cthreads.h`)

A shallow embedding of `request`, `error` and `weather_work`.

* C strings are lists of characters (one `Char` per C `char`, the bytes before
  the terminating NUL); the fixed buffers of `STRLEN` bytes are modelled by
  checking every store against `STRLEN` and recording an overrun as a `Fault`.
* The outside world (what `pthread_create`, `pthread_join`, `popen` and
  `strerror(errno)` give back) is a parameter, `World`.
* `weather_work` runs its workers concurrently.  The execution is a step
  machine: the main thread and every worker are scheduled by a list of
  `Choice`s, a choice that cannot move (a blocked join, a worker that is not
  running) is skipped.  Theorems quantify over every schedule.
-/

namespace CThreads

/-- A C string: the characters before the terminating NUL. -/
abbrev CString := List Char

/-- The `#define STRLEN 256` of cthreads.h. -/
def STRLEN : Nat := 256

/-- The `#define CMD1` of cthreads.h, a format with one `%s`. -/
def CMD1 : CString :=
  "curl -s 'http://api.openweathermap.org/data/2.5/weather?q=%s".toList

/-- The `#define CMD2` of cthreads.h. -/
def CMD2 : CString :=
  "&appid=<your-api-key-here>' | jq -r '\x7bname: .name, temperature: .main.temp, desc: .weather[].description\x7d | [.name, .temperature, .desc] | @csv'".toList

/-- The part of the C library formatter that the program uses: ordinary
characters are copied, each `%s` is replaced by the next argument. -/
def sprintf : CString → List CString → CString
  | '%' :: 's' :: fmt, a :: args => a ++ sprintf fmt args
  | c :: fmt, args => c :: sprintf fmt args
  | [], _ => []

/-- The C `strcat`, on string values. -/
def strcat (dst src : CString) : CString := dst ++ src

/-- The bytes of a buffer up to its first NUL: the string a `char *` to the
buffer denotes. -/
def cstr (bytes : List Char) : CString := bytes.takeWhile (fun c => c ≠ '\x00')

/-- What the functions outside the program give back.
`createRet i` and `joinRet i` are the values `pthread_create` and
`pthread_join` return for `threads[i]` (0 is success); `popen n cmd` is the
stream of the `n`-th `popen(cmd, "r")` of the run: `none` for a NULL stream,
`some out` for a stream that delivers the bytes `out`; `strerror` is the text of
`strerror(errno)` when `error` is called. -/
structure World where
  createRet : Nat → Int
  joinRet : Nat → Int
  popen : Nat → CString → Option (List Char)
  strerror : CString

/-- The end of the process through `exit`: its status and what `error` printed. -/
structure Exit where
  status : Nat
  report : CString
  deriving DecidableEq, Repr

/-- The ways the program leaves defined behaviour. -/
inductive Fault
  | cmd_overrun
  | res_overrun
  | uninit_read
  | bad_thread
  deriving DecidableEq, Repr

/-- The function `error`: `printf("%s: %s\n", msg, strerror(errno)); exit(1);`. -/
def error (W : World) (msg : CString) : Exit :=
  { status := 1, report := sprintf "%s: %s\n".toList [msg, W.strerror] }

/-- The command `request` builds in `cmd`:
`sprintf(cmd, CMD1, city); strcat(cmd, CMD2);`. -/
def command (city : CString) : CString := strcat (sprintf CMD1 [city]) CMD2

/-- The conversion `%[^\n]` of `fscanf(fp, "%[^\n]s", res)`: the longest run of
characters other than newline at the head of the stream.  An empty run is a
matching failure (or end of file): nothing is stored.  The format gives no
field width. -/
def fscanf (out : List Char) : Option (List Char) :=
  let line := out.takeWhile (fun c => c ≠ '\n')
  if line = [] then none else some line

/-- The number of bytes `fscanf` stores in `res` for a stream: the matched
characters and the terminating NUL. -/
def storedBytes (out : List Char) : Nat :=
  match fscanf out with
  | none => 0
  | some line => line.length + 1

/-- How a call of `request` ends. `value res` is the return of the pointer to
the buffer `res`: `some s` when the buffer holds the string `s`, `none` when
nothing was stored in it (it is as `malloc` left it). -/
inductive Ret
  | exit (e : Exit)
  | fault (f : Fault)
  | value (res : Option CString)
  deriving DecidableEq, Repr

/-- The function `request`, as the `n`-th request of the run.  The progress line
it prints on stdout is not modelled. -/
def request (W : World) (n : Nat) (city : CString) : Ret :=
  let cmd := command city
  if STRLEN < cmd.length + 1 then .fault .cmd_overrun
  else
    match W.popen n cmd with
    | none => .exit (error W "Failed to run command\n".toList)
    | some out =>
      match fscanf out with
      | none => .value none
      | some line =>
        if STRLEN < line.length + 1 then .fault .res_overrun
        else .value (some (cstr line))

/-- One worker: `absent` before a successful `pthread_create`, `running` until
its `request` returns, `done res` afterwards, `res` being the buffer returned. -/
inductive Thread
  | absent
  | running
  | done (res : Option CString)
  deriving DecidableEq, Repr

/-- The pthread operations of the main thread. -/
inductive Op
  | create (i : Nat)
  | join (i : Nat)
  deriving DecidableEq, Repr

/-- Where the main thread of `weather_work` is.
`creating i`: about to test `i-- > 0` with the value `i`;
`joining j`: about to test `++i < NUM_CITIES`, `j` being the value of `++i`;
`returned`: `return response` was executed;
`exited e`: some thread called `error`; `fault f`: undefined behaviour. -/
inductive Pc
  | creating (i : Nat)
  | joining (j : Nat)
  | returned
  | exited (e : Exit)
  | fault (f : Fault)
  deriving DecidableEq, Repr

/-- The main thread is inside one of the two loops. -/
def Pc.live : Pc → Bool
  | .creating _ => true
  | .joining _ => true
  | _ => false

/-- The state of a run of `weather_work`.
`response` is the array of result slots (`none`: allocated, not written),
`result` the string the variable `result` points to (`none`: no string),
`ops`, `writes` and `requests` record, in order, the pthread operations of the
main thread, the slots `strcpy` wrote, and the calls of `request` with the index
of the worker and its argument. -/
structure State where
  pc : Pc
  threads : Nat → Thread
  response : List (Option CString)
  result : Option CString
  ops : List Op
  writes : List Nat
  requests : List (Nat × CString)

/-- The state after the allocations at the head of `weather_work`:
`NUM_CITIES` slots, none written, no thread, `i = NUM_CITIES`. -/
def init (cities : List CString) : State :=
  { pc := .creating cities.length
    threads := fun _ => .absent
    response := List.replicate cities.length none
    result := none
    ops := []
    writes := []
    requests := [] }

/-- The statement `strcpy(response[i], (char *) result)` and the step to the
next test of the join loop. -/
def copy (s : State) (i : Nat) : State :=
  match s.result with
  | none => { s with pc := .fault .uninit_read }
  | some r =>
    { s with response := s.response.set i (some r), writes := s.writes ++ [i],
             pc := .joining (i + 1) }

/-- One step of the main thread: a loop test together with the body it lets in.
`none`: the main thread cannot move (it waits in `pthread_join`, or is over). -/
def mainStep (W : World) (cities : List CString) (s : State) : Option State :=
  match s.pc with
  | .creating (i + 1) =>
    if W.createRet i = -1 then
      some { s with ops := s.ops ++ [.create i],
                    pc := .exited (error W "Can't create thread\n".toList) }
    else
      some { s with ops := s.ops ++ [.create i], pc := .creating i,
                    threads := if W.createRet i = 0
                      then (fun k => if k = i then .running else s.threads k)
                      else s.threads }
  | .creating 0 => some { s with pc := .joining 0 }
  | .joining i =>
    if i < cities.length then
      if W.joinRet i = 0 then
        match s.threads i with
        | .done res => some (copy { s with ops := s.ops ++ [.join i], result := res } i)
        | .running => none
        | .absent => some { s with ops := s.ops ++ [.join i], pc := .fault .bad_thread }
      else if W.joinRet i = -1 then
        some { s with ops := s.ops ++ [.join i],
                      pc := .exited (error W "Can't join thread\n".toList) }
      else some (copy { s with ops := s.ops ++ [.join i] } i)
    else some { s with pc := .returned }
  | _ => none

/-- One step of worker `i`: its whole call `request(cities[i])`.  `none`: the
worker is not running, or `weather_work` is over. -/
def workerStep (W : World) (cities : List CString) (i : Nat) (s : State) : Option State :=
  if s.pc.live then
    match s.threads i, cities[i]? with
    | .running, some city =>
      match request W s.requests.length city with
      | .exit e => some { s with requests := s.requests ++ [(i, city)], pc := .exited e }
      | .fault f => some { s with requests := s.requests ++ [(i, city)], pc := .fault f }
      | .value res =>
        some { s with requests := s.requests ++ [(i, city)],
                      threads := fun k => if k = i then .done res else s.threads k }
    | _, _ => none
  else none

/-- What the scheduler picks: the main thread or the worker of an index. -/
inductive Choice
  | main
  | worker (i : Nat)
  deriving DecidableEq, Repr

/-- One scheduled step. -/
def step (W : World) (cities : List CString) : Choice → State → Option State
  | .main, s => mainStep W cities s
  | .worker i, s => workerStep W cities i s

/-- A run along a schedule; a choice that cannot move is skipped. -/
def exec (W : World) (cities : List CString) : List Choice → State → State
  | [], s => s
  | c :: cs, s => exec W cities cs ((step W cities c s).getD s)

/-- The function `weather_work(cities, NUM_CITIES)` with
`NUM_CITIES = cities.length`, run along a schedule.  When the `pc` of the state
is `returned`, its `response` is the array returned. -/
def weather_work (W : World) (cities : List CString) (sched : List Choice) : State :=
  exec W cities sched (init cities)

/-- The creations of the first loop down to index `i`:
`create (N-1), ..., create i`. -/
def createOps (N i : Nat) : List Op := ((List.range' i (N - i)).reverse).map Op.create

/-- The joins of the first `j` iterations of the second loop. -/
def joinOps (j : Nat) : List Op := (List.range j).map Op.join

/-- A world in which every call succeeds and the `n`-th command prints `line n`. -/
def okWorld (line : Nat → List Char) : World :=
  { createRet := fun _ => 0
    joinRet := fun _ => 0
    popen := fun n _ => some (line n ++ ['\n'])
    strerror := "Success".toList }

/-- A world in which every call succeeds and the command for a city prints the
line `city,20,clear`: the city is read back from the command, after `cmd1Text`
and up to the `&` of `CMD2`. -/
def echoWorld : World :=
  { createRet := fun _ => 0
    joinRet := fun _ => 0
    popen := fun _ cmd =>
      some ((cmd.drop 58).takeWhile (fun c => c ≠ '&') ++ ",20,clear\n".toList)
    strerror := "Success".toList }

/-- A world in which every command starts and prints nothing. -/
def silentWorld : World :=
  { createRet := fun _ => 0
    joinRet := fun _ => 0
    popen := fun _ _ => some []
    strerror := "Success".toList }

/-- Two keys. -/
def twoCities : List CString := ["Paris".toList, "Tokyo".toList]

/-- The same key twice. -/
def dupCities : List CString := ["A".toList, "A".toList]

/-- A world in which `popen` gives NULL for the command of `twoCities[k]` and
nothing else fails. -/
def failAt (k : Nat) : World :=
  { createRet := fun _ => 0
    joinRet := fun _ => 0
    popen := fun _ cmd =>
      if cmd = command (twoCities.getD k []) then none else some "x,1,y\n".toList
    strerror := "Cannot allocate memory".toList }

/-- A schedule for two keys: both creations, worker 1, the end of the creation
loop, worker 0, both joins, the return. -/
def sched2 : List Choice :=
  [.main, .main, .worker 1, .main, .worker 0, .main, .main, .main]

/-- A response line of 256 characters. -/
def longLine : List Char := List.replicate 256 'a'

/-- The text of `CMD1` before its `%s`. -/
def cmd1Text : CString := "curl -s 'http://api.openweathermap.org/data/2.5/weather?q=".toList

/-- The message of `error` after a failed `pthread_create`. -/
def msgCreate : CString := "Can't create thread\n".toList

/-- The message of `error` after a failed `pthread_join`. -/
def msgJoin : CString := "Can't join thread\n".toList

/-- The message of `error` after a failed `popen`. -/
def msgRun : CString := "Failed to run command\n".toList

/-- Why a run can have reached `exit`: a `pthread_create` or a `pthread_join`
that returned -1, or a started worker whose `request` called `error`. -/
def ExitCause (W : World) (cities : List CString) (e : Exit) : Prop :=
  (∃ k, k < cities.length ∧ W.createRet k = -1 ∧ e = error W msgCreate) ∨
  (∃ k, k < cities.length ∧ W.joinRet k = -1 ∧ e = error W msgJoin) ∨
  (∃ n k city, cities[k]? = some city ∧ W.createRet k = 0 ∧ request W n city = .exit e)

/-- Why a run can have left defined behaviour: a buffer overrun in a started
worker, a pthread call that returned neither 0 nor -1, or a started worker
that returned a buffer nothing was stored in. -/
def FaultCause (W : World) (cities : List CString) (f : Fault) : Prop :=
  (∃ n k city, cities[k]? = some city ∧ W.createRet k = 0 ∧ request W n city = .fault f) ∨
  (∃ k, k < cities.length ∧ W.createRet k ≠ 0 ∧ W.createRet k ≠ -1) ∨
  (∃ k, k < cities.length ∧ W.joinRet k ≠ 0 ∧ W.joinRet k ≠ -1) ∨
  (∃ n k city, cities[k]? = some city ∧ W.createRet k = 0 ∧ request W n city = .value none)

/-- What holds at the test of the join loop with `++i = j`. -/
def JoinInv (W : World) (cities : List CString) (s : State) (j : Nat) : Prop :=
  j ≤ cities.length ∧
  s.ops = createOps cities.length 0 ++ joinOps j ∧
  s.writes = List.range j ∧
  s.response.length = cities.length ∧
  (∀ k, j ≤ k → k < cities.length → s.response[k]? = some none) ∧
  (∀ k, k < j → W.joinRet k ≠ -1 ∧
    (W.joinRet k = 0 → ∃ r, s.threads k = .done (some r) ∧ s.response[k]? = some (some r))) ∧
  (∀ k, k < cities.length → W.createRet k ≠ -1 ∧ (W.createRet k = 0 → s.threads k ≠ .absent))

/-- What holds at the test of the creation loop with `i`. -/
def CreateInv (W : World) (cities : List CString) (s : State) (i : Nat) : Prop :=
  i ≤ cities.length ∧
  s.ops = createOps cities.length i ∧
  s.writes = [] ∧
  s.response = List.replicate cities.length none ∧
  (∀ k, k < i → s.threads k = .absent) ∧
  (∀ k, i ≤ k → k < cities.length →
    W.createRet k ≠ -1 ∧ (W.createRet k = 0 → s.threads k ≠ .absent))

/-- The part of the invariant that depends on where the main thread is. -/
def PhaseInv (W : World) (cities : List CString) (s : State) : Pc → Prop
  | .creating i => CreateInv W cities s i
  | .joining j => JoinInv W cities s j
  | .returned => JoinInv W cities s cities.length
  | .exited e => ExitCause W cities e
  | .fault f => FaultCause W cities f

/-- No thread has called `exit` and no undefined behaviour has occurred. -/
def Pc.going : Pc → Bool
  | .exited _ => false
  | .fault _ => false
  | _ => true

/-- The invariant of every run of `weather_work`, in every world. -/
structure Inv (W : World) (cities : List CString) (s : State) : Prop where
  phase : PhaseInv W cities s s.pc
  done_res : ∀ k res, s.threads k = .done res →
    ∃ n city, cities[k]? = some city ∧ request W n city = .value res
  started : ∀ k, s.threads k ≠ .absent → k < cities.length ∧ W.createRet k = 0
  req_arg : ∀ p ∈ s.requests, cities[p.1]? = some p.2
  req_nodup : (s.requests.map Prod.fst).Nodup
  req_done : s.pc.going = true →
    ∀ k, k ∈ s.requests.map Prod.fst ↔ ∃ res, s.threads k = .done res

/-- Every `pthread_create` and `pthread_join` of the run returns 0. -/
def PthreadOk (W : World) (N : Nat) : Prop :=
  ∀ i, i < N → W.createRet i = 0 ∧ W.joinRet i = 0

/-- The function `request` returns a record for every key of the sequence,
whenever it is called. -/
def Succeeds (W : World) (cities : List CString) : Prop :=
  ∀ n key, key ∈ cities → ∃ r, request W n key = .value (some r)

/-- The three calls whose failure the program tests for: `pthread_create`
(against -1), the `popen` of `request` (against NULL) and `pthread_join`
(against -1). -/
inductive Call
  | create
  | request
  | join
  deriving DecidableEq, Repr

/-- The message the program passes to `error` after a failure of the call. -/
def Call.msg : Call → CString
  | .create => msgCreate
  | .request => msgRun
  | .join => msgJoin

/-- In the run that led to `s` the call of worker `k` was made and failed:
its `pthread_create` or `pthread_join` is among the operations performed and
returns -1, or its `request` is among the requests made and called `error`
(its `popen` gave NULL). -/
def Failed (W : World) (s : State) (k : Nat) : Call → Prop
  | .create => Op.create k ∈ s.ops ∧ W.createRet k = -1
  | .request => ∃ n city e, s.requests[n]? = some (k, city) ∧ request W n city = .exit e
  | .join => Op.join k ∈ s.ops ∧ W.joinRet k = -1

/-- A world with one failure, the call of worker `k`, which fails whenever it is
made; every other call succeeds whenever it is made.  For `request` the failure
is that of the command of `keys[k]`; the commands of all other keys print a
record (a worker with the same key as `k` runs the same command). -/
def OneFailure (W : World) (cities : List CString) (k : Nat) : Call → Prop
  | .create => k < cities.length ∧ W.createRet k = -1 ∧
      (∀ i, i < cities.length → i ≠ k → W.createRet i = 0) ∧
      (∀ i, i < cities.length → W.joinRet i = 0) ∧ Succeeds W cities
  | .request => PthreadOk W cities.length ∧ ∃ city, cities[k]? = some city ∧
      (∀ n, ∃ e, request W n city = .exit e) ∧
      (∀ key, key ∈ cities → key ≠ city → ∀ n, ∃ r, request W n key = .value (some r))
  | .join => k < cities.length ∧ W.joinRet k = -1 ∧
      (∀ i, i < cities.length → i ≠ k → W.joinRet i = 0) ∧
      (∀ i, i < cities.length → W.createRet i = 0) ∧ Succeeds W cities

/-- Every failure of the world is one the program tests for: the pthread calls
return 0 or -1, and the command of each key either always prints a record or
never starts. -/
def Tested (W : World) (cities : List CString) : Prop :=
  (∀ i, i < cities.length →
    (W.createRet i = 0 ∨ W.createRet i = -1) ∧ (W.joinRet i = 0 ∨ W.joinRet i = -1)) ∧
  (∀ key, key ∈ cities →
    (∀ n, ∃ r, request W n key = .value (some r)) ∨ (∀ n, ∃ e, request W n key = .exit e))

/-- The world `echoWorld`, except that `pthread_create` returns the error number
11 and `pthread_join` the error number 3 for index 1. -/
def errnoWorld : World :=
  { echoWorld with
    createRet := fun i => if i = 1 then 11 else 0
    joinRet := fun i => if i = 1 then 3 else 0 }

/-- A world in which the command of Tokyo starts and prints nothing, and every
other command prints a record. -/
def mutedWorld : World :=
  { createRet := fun _ => 0
    joinRet := fun _ => 0
    popen := fun _ cmd =>
      if cmd = command "Tokyo".toList then some [] else some "x,1,y\n".toList
    strerror := "Success".toList }

/-- A world in which `popen` gives NULL for the first request of the run,
whatever its command, and every later command prints a record. -/
def flakyWorld : World :=
  { createRet := fun _ => 0
    joinRet := fun _ => 0
    popen := fun n _ => if n = 0 then none else some "x,1,y\n".toList
    strerror := "Cannot allocate memory".toList }

/-- A key with a single quote and shell metacharacters. -/
def quoteKey : CString := "O'Hare; ls".toList

/-- A world in which `popen` gives a stream for one command only, the text of
`CMD1` and `CMD2` around the unchanged `quoteKey`, and NULL for any other. -/
def quoteWorld : World :=
  { createRet := fun _ => 0
    joinRet := fun _ => 0
    popen := fun _ cmd =>
      if cmd = "curl -s 'http://api.openweathermap.org/data/2.5/weather?q=O'Hare; ls&appid=<your-api-key-here>' | jq -r '\x7bname: .name, temperature: .main.temp, desc: .weather[].description\x7d | [.name, .temperature, .desc] | @csv'".toList
      then some "ok\n".toList else none
    strerror := "Success".toList }

/-- A schedule for `errnoWorld`: both creations, the end of the creation loop,
worker 0, both joins, the return. -/
def schedErrno : List Choice :=
  [.main, .main, .main, .worker 0, .main, .main, .main]

/-- A schedule in which worker 0 makes the first request of the run. -/
def schedFlaky : List Choice := [.main, .main, .main, .worker 0]

/-! ## Theorems -/

theorem createOps_succ (N i : Nat) (h : i < N) :
    createOps N (i + 1) ++ [Op.create i] = createOps N i := by
  unfold createOps
  have e : N - i = (N - (i + 1)) + 1 := by omega
  rw [e, List.range'_succ]
  simp

theorem createOps_self (N : Nat) : createOps N N = [] := by
  simp [createOps]

theorem createOps_zero (N : Nat) : createOps N 0 = (List.range N).reverse.map Op.create := by
  simp [createOps, List.range_eq_range']

theorem joinOps_succ (j : Nat) : joinOps (j + 1) = joinOps j ++ [Op.join j] := by
  simp [joinOps, List.range_succ]

theorem inv_init (W : World) (cities : List CString) : Inv W cities (init cities) where
  phase := by
    simp only [init, PhaseInv, CreateInv, createOps_self]
    refine ⟨Nat.le_refl _, trivial, trivial, trivial, fun _ _ => trivial, fun k h1 h2 => ?_⟩
    omega
  done_res := by simp [init]
  started := by simp [init]
  req_arg := by simp [init]
  req_nodup := by simp [init]
  req_done := by simp [init]

theorem inv_copy {W : World} {cities : List CString} {s : State} {j : Nat}
    (h : Inv W cities s) (hpc : s.pc = .joining j) (hlt : j < cities.length)
    (r : CString) (res : Option CString) (hm : W.joinRet j ≠ -1)
    (hz : W.joinRet j = 0 → s.threads j = .done (some r)) :
    Inv W cities ⟨.joining (j + 1), s.threads, s.response.set j (some r), res,
      s.ops ++ [.join j], s.writes ++ [j], s.requests⟩ := by
  have hp := h.phase
  rw [hpc] at hp
  obtain ⟨_, hops, hw, hlen, hnone, hdone, hcr⟩ := hp
  refine ⟨?_, h.done_res, h.started, h.req_arg, h.req_nodup, ?_⟩
  · refine ⟨hlt, ?_, ?_, ?_, ?_, ?_, hcr⟩
    · show s.ops ++ [Op.join j] = _
      rw [hops, joinOps_succ, List.append_assoc]
    · show s.writes ++ [j] = _
      rw [hw, List.range_succ]
    · simp [hlen]
    · intro k hjk hk
      show (s.response.set j (some r))[k]? = _
      rw [List.getElem?_set_ne (by omega)]
      exact hnone k (by omega) hk
    · intro k hk
      show _ ∧ (_ → ∃ r', _ ∧ (s.response.set j (some r))[k]? = _)
      by_cases hkj : k = j
      · subst hkj
        refine ⟨hm, fun h0 => ⟨r, hz h0, ?_⟩⟩
        rw [List.getElem?_set_self]
        simp [hlen, hlt]
      · have := hdone k (by omega)
        refine ⟨this.1, fun h0 => ?_⟩
        obtain ⟨r', h1, h2⟩ := this.2 h0
        refine ⟨r', h1, ?_⟩
        rw [List.getElem?_set_ne (by omega)]
        exact h2
  · intro _ k
    exact h.req_done (by simp [hpc, Pc.going]) k

theorem inv_mainStep {W : World} {cities : List CString} {s s' : State}
    (h : Inv W cities s) (hs : mainStep W cities s = some s') : Inv W cities s' := by
  have hp := h.phase
  cases hpc : s.pc with
  | creating i =>
    rw [hpc] at hp
    obtain ⟨hi, hops, hw, hr, habs, hcr⟩ := hp
    cases i with
    | zero =>
      simp [mainStep, hpc] at hs
      subst hs
      refine ⟨?_, h.done_res, h.started, h.req_arg, h.req_nodup, ?_⟩
      · refine ⟨Nat.zero_le _, by simpa [joinOps] using hops, by simpa using hw, by simp [hr], ?_, ?_, ?_⟩
        · intro k _ hk
          simp [hr, hk]
        · intro k hk
          omega
        · intro k hk
          exact hcr k (Nat.zero_le _) hk
      · intro _ k
        exact h.req_done (by simp [hpc, Pc.going]) k
    | succ i =>
      simp only [mainStep, hpc] at hs
      by_cases hc : W.createRet i = -1
      · simp [hc] at hs
        subst hs
        refine ⟨?_, h.done_res, h.started, h.req_arg, h.req_nodup, ?_⟩
        · exact Or.inl ⟨i, hi, hc, rfl⟩
        · simp [Pc.going]
      · simp only [hc, if_false, Option.some.injEq] at hs
        subst hs
        have hai : s.threads i = .absent := habs i (Nat.lt_succ_self i)
        refine ⟨?_, ?_, ?_, h.req_arg, h.req_nodup, ?_⟩
        · refine ⟨by omega, ?_, hw, hr, ?_, ?_⟩
          · show s.ops ++ [Op.create i] = _
            rw [hops, createOps_succ _ _ hi]
          · intro k hk
            show (if W.createRet i = 0 then _ else s.threads) k = _
            split
            · simp [Nat.ne_of_lt hk, habs k (by omega)]
            · exact habs k (by omega)
          · intro k hik hk
            show _ ∧ (_ → (if W.createRet i = 0 then _ else s.threads) k ≠ _)
            by_cases hki : k = i
            · subst hki
              refine ⟨hc, fun h0 => ?_⟩
              simp [h0]
            · have := hcr k (by omega) hk
              refine ⟨this.1, fun h0 => ?_⟩
              split
              · simp [hki, this.2 h0]
              · exact this.2 h0
        · intro k res
          show (if W.createRet i = 0 then _ else s.threads) k = _ → _
          split
          · by_cases hki : k = i
            · simp [hki]
            · simp only [hki, if_false]
              exact h.done_res k res
          · exact h.done_res k res
        · intro k
          show (if W.createRet i = 0 then _ else s.threads) k ≠ _ → _
          split
          · rename_i h0
            by_cases hki : k = i
            · intro _
              exact ⟨hki ▸ hi, hki ▸ h0⟩
            · simp only [hki, if_false]
              exact h.started k
          · exact h.started k
        · intro _ k
          show k ∈ s.requests.map Prod.fst ↔ ∃ res, (if W.createRet i = 0 then _ else s.threads) k = _
          have := h.req_done (by simp [hpc, Pc.going]) k
          split
          · by_cases hki : k = i
            · subst hki
              simp only [if_true]
              rw [this]
              simp [hai]
            · simp only [hki, if_false]
              exact this
          · exact this
  | joining j =>
    rw [hpc] at hp
    obtain ⟨hj, hops, hw, hlen, hnone, hdone, hcr⟩ := hp
    simp only [mainStep, hpc] at hs
    by_cases hlt : j < cities.length
    · simp only [hlt, if_true] at hs
      by_cases h0 : W.joinRet j = 0
      · simp only [h0, if_true] at hs
        cases ht : s.threads j with
        | absent =>
          simp only [ht, Option.some.injEq] at hs
          subst hs
          refine ⟨?_, h.done_res, h.started, h.req_arg, h.req_nodup, by simp [Pc.going]⟩
          refine Or.inr (Or.inl ⟨j, hlt, fun hc => (hcr j hlt).2 hc ht, (hcr j hlt).1⟩)
        | running => simp [ht] at hs
        | done res =>
          simp only [ht, Option.some.injEq] at hs
          cases res with
          | none =>
            simp only [copy] at hs
            subst hs
            refine ⟨?_, h.done_res, h.started, h.req_arg, h.req_nodup, by simp [Pc.going]⟩
            obtain ⟨n, city, hc1, hc2⟩ := h.done_res j none ht
            exact Or.inr (Or.inr (Or.inr ⟨n, j, city, hc1, (h.started j (by simp [ht])).2, hc2⟩))
          | some r =>
            simp only [copy] at hs
            subst hs
            exact inv_copy h hpc hlt r (some r) (by simp [h0]) (fun _ => ht)
      · simp only [h0, if_false] at hs
        by_cases hm : W.joinRet j = -1
        · simp only [hm, if_true, Option.some.injEq] at hs
          subst hs
          refine ⟨?_, h.done_res, h.started, h.req_arg, h.req_nodup, by simp [Pc.going]⟩
          exact Or.inr (Or.inl ⟨j, hlt, hm, rfl⟩)
        · simp only [hm, if_false, Option.some.injEq] at hs
          cases hres : s.result with
          | none =>
            simp only [copy, hres] at hs
            subst hs
            refine ⟨?_, h.done_res, h.started, h.req_arg, h.req_nodup, by simp [Pc.going]⟩
            exact Or.inr (Or.inr (Or.inl ⟨j, hlt, h0, hm⟩))
          | some r =>
            simp only [copy, hres] at hs
            subst hs
            exact inv_copy h hpc hlt r (some r) hm (fun hz => absurd hz h0)
    · simp only [hlt, if_false, Option.some.injEq] at hs
      subst hs
      have hjN : j = cities.length := by omega
      subst hjN
      refine ⟨?_, h.done_res, h.started, h.req_arg, h.req_nodup, fun _ k => ?_⟩
      · exact ⟨hj, hops, hw, hlen, hnone, hdone, hcr⟩
      · exact h.req_done (by simp [hpc, Pc.going]) k
  | returned => simp [mainStep, hpc] at hs
  | exited e => simp [mainStep, hpc] at hs
  | fault f => simp [mainStep, hpc] at hs

theorem inv_workerStep {W : World} {cities : List CString} {s s' : State} {i : Nat}
    (h : Inv W cities s) (hs : workerStep W cities i s = some s') : Inv W cities s' := by
  unfold workerStep at hs
  by_cases hl : s.pc.live = true
  swap
  · simp [hl] at hs
  simp only [hl, if_true] at hs
  have hg : s.pc.going = true := by
    cases hpc : s.pc <;> simp [hpc, Pc.live, Pc.going] at hl ⊢
  cases ht : s.threads i with
  | absent => simp [ht] at hs
  | done res => simp [ht] at hs
  | running =>
    cases hc : cities[i]? with
    | none => simp [ht, hc] at hs
    | some city =>
      simp only [ht, hc] at hs
      have hst := h.started i (by simp [ht])
      have hnot : i ∉ s.requests.map Prod.fst := by
        rw [h.req_done hg i]
        simp [ht]
      have harg : ∀ p ∈ s.requests ++ [(i, city)], cities[p.1]? = some p.2 := by
        intro p hp
        rcases List.mem_append.1 hp with hp | hp
        · exact h.req_arg p hp
        · simp at hp
          subst hp
          exact hc
      have hnd : ((s.requests ++ [(i, city)]).map Prod.fst).Nodup := by
        rw [List.map_append, List.nodup_append]
        refine ⟨h.req_nodup, by simp, ?_⟩
        intro a ha hb
        simp at hb
        subst hb
        exact hnot ha
      cases hr : request W s.requests.length city with
      | exit e =>
        simp only [hr, Option.some.injEq] at hs
        subst hs
        refine ⟨?_, h.done_res, h.started, harg, hnd, by simp [Pc.going]⟩
        exact Or.inr (Or.inr ⟨_, i, city, hc, hst.2, hr⟩)
      | fault f =>
        simp only [hr, Option.some.injEq] at hs
        subst hs
        refine ⟨?_, h.done_res, h.started, harg, hnd, by simp [Pc.going]⟩
        exact Or.inl ⟨_, i, city, hc, hst.2, hr⟩
      | value res =>
        simp only [hr, Option.some.injEq] at hs
        subst hs
        refine ⟨?_, ?_, ?_, harg, hnd, ?_⟩
        · have hp := h.phase
          show PhaseInv W cities _ s.pc
          cases hpc : s.pc with
          | creating n =>
            rw [hpc] at hp
            obtain ⟨hn, hops, hw, hresp, habs, hcr⟩ := hp
            have hni : n ≤ i := by
              by_contra hcon
              have := habs i (by omega)
              simp [ht] at this
            refine ⟨hn, hops, hw, hresp, ?_, ?_⟩
            · intro k hk
              show (if k = i then _ else s.threads k) = _
              rw [if_neg (by omega)]
              exact habs k hk
            · intro k hnk hk
              refine ⟨(hcr k hnk hk).1, fun h0 => ?_⟩
              show (if k = i then _ else s.threads k) ≠ _
              split
              · simp
              · exact (hcr k hnk hk).2 h0
          | joining j =>
            rw [hpc] at hp
            obtain ⟨hj, hops, hw, hlen, hnone, hdone, hcr⟩ := hp
            refine ⟨hj, hops, hw, hlen, hnone, ?_, ?_⟩
            · intro k hk
              refine ⟨(hdone k hk).1, fun h0 => ?_⟩
              obtain ⟨r, h1, h2⟩ := (hdone k hk).2 h0
              refine ⟨r, ?_, h2⟩
              show (if k = i then _ else s.threads k) = _
              have hki : k ≠ i := by
                rintro rfl
                simp [ht] at h1
              rw [if_neg hki]
              exact h1
            · intro k hk
              refine ⟨(hcr k hk).1, fun h0 => ?_⟩
              show (if k = i then _ else s.threads k) ≠ _
              split
              · simp
              · exact (hcr k hk).2 h0
          | returned => simp [hpc, Pc.live] at hl
          | exited e => simp [hpc, Pc.live] at hl
          | fault f => simp [hpc, Pc.live] at hl
        · intro k res'
          show (if k = i then _ else s.threads k) = _ → _
          split
          · rename_i hki
            intro heq
            simp only [Thread.done.injEq] at heq
            subst heq
            subst hki
            exact ⟨_, city, hc, hr⟩
          · exact h.done_res k res'
        · intro k
          show (if k = i then _ else s.threads k) ≠ _ → _
          split
          · rename_i hki
            intro _
            exact hki ▸ hst
          · exact h.started k
        · intro _ k
          show k ∈ (s.requests ++ [(i, city)]).map Prod.fst ↔
            ∃ res', (if k = i then Thread.done res else s.threads k) = Thread.done res'
          by_cases hki : k = i
          · simp [hki]
          · simp only [hki, if_false, List.map_append, List.mem_append, List.map_cons,
              List.map_nil, List.mem_singleton, or_false]
            exact h.req_done hg k

theorem inv_step {W : World} {cities : List CString} {s s' : State} {c : Choice}
    (h : Inv W cities s) (hs : step W cities c s = some s') : Inv W cities s' := by
  cases c with
  | main => exact inv_mainStep h hs
  | worker i => exact inv_workerStep h hs

theorem inv_exec {W : World} {cities : List CString} (sched : List Choice) :
    ∀ {s : State}, Inv W cities s → Inv W cities (exec W cities sched s) := by
  induction sched with
  | nil => intro s h; exact h
  | cons c cs ih =>
    intro s h
    simp only [exec]
    cases hs : step W cities c s with
    | none => exact ih h
    | some s' => exact ih (inv_step h hs)

theorem inv_weather_work (W : World) (cities : List CString) (sched : List Choice) :
    Inv W cities (weather_work W cities sched) :=
  inv_exec sched (inv_init W cities)

theorem exec_append (W : World) (cities : List CString) (a b : List Choice) (s : State) :
    exec W cities (a ++ b) s = exec W cities b (exec W cities a s) := by
  induction a generalizing s with
  | nil => rfl
  | cons c cs ih =>
    show exec W cities (cs ++ b) _ = _
    exact ih _

theorem weather_work_append (W : World) (cities : List CString) (a b : List Choice) :
    weather_work W cities (a ++ b) = exec W cities b (weather_work W cities a) :=
  exec_append W cities a b _

theorem exec_main_creating_succ {W : World} {cities : List CString} {s : State} {i : Nat}
    (hpc : s.pc = .creating (i + 1)) (hc : W.createRet i ≠ -1) :
    (exec W cities [.main] s).pc = .creating i := by
  simp [exec, step, mainStep, hpc, hc]

theorem exec_main_creating_fail {W : World} {cities : List CString} {s : State} {i : Nat}
    (hpc : s.pc = .creating (i + 1)) (hc : W.createRet i = -1) :
    (exec W cities [.main] s).pc = .exited (error W msgCreate) := by
  simp [exec, step, mainStep, hpc, hc, msgCreate]

theorem exec_main_creating_zero {W : World} {cities : List CString} {s : State}
    (hpc : s.pc = .creating 0) : (exec W cities [.main] s).pc = .joining 0 := by
  simp [exec, step, mainStep, hpc]

theorem exec_main_joining_end {W : World} {cities : List CString} {s : State} {j : Nat}
    (hpc : s.pc = .joining j) (hj : ¬ j < cities.length) :
    (exec W cities [.main] s).pc = .returned := by
  simp [exec, step, mainStep, hpc, hj]

/-- After the worker of the awaited index had its turn, it is done: either it
was done before (and the turn was skipped) or it ran its request now. -/
theorem exec_worker_done {W : World} {cities : List CString} {s : State} {j : Nat}
    {city : CString} (h : Inv W cities s) (hpc : s.pc = .joining j)
    (hlt : j < cities.length) (hcity : cities[j]? = some city) (hc : W.createRet j = 0)
    (hreq : ∀ n, ∃ r, request W n city = .value (some r)) :
    (exec W cities [.worker j] s).pc = .joining j ∧
      ∃ r, (exec W cities [.worker j] s).threads j = .done (some r) := by
  have hp := h.phase
  rw [hpc] at hp
  obtain ⟨_, _, _, _, _, _, hcr⟩ := hp
  cases ht : s.threads j with
  | absent => exact absurd ht ((hcr j hlt).2 hc)
  | running =>
    obtain ⟨r, hr⟩ := hreq s.requests.length
    simp [exec, step, workerStep, hpc, Pc.live, ht, hcity, hr]
  | done res =>
    obtain ⟨n, city', h1, h2⟩ := h.done_res j res ht
    rw [hcity] at h1
    cases h1
    obtain ⟨r, hr⟩ := hreq n
    rw [hr] at h2
    cases h2
    simp [exec, step, workerStep, hpc, Pc.live, ht]

theorem exec_join_ok {W : World} {cities : List CString} {s : State} {j : Nat}
    {city : CString} (h : Inv W cities s) (hpc : s.pc = .joining j)
    (hlt : j < cities.length) (hcity : cities[j]? = some city) (hc : W.createRet j = 0)
    (hj : W.joinRet j = 0) (hreq : ∀ n, ∃ r, request W n city = .value (some r)) :
    (exec W cities [.worker j, .main] s).pc = .joining (j + 1) := by
  obtain ⟨h1, r, h2⟩ := exec_worker_done h hpc hlt hcity hc hreq
  show (exec W cities ([.worker j] ++ [.main]) s).pc = _
  rw [exec_append]
  generalize exec W cities [.worker j] s = t at h1 h2
  simp [exec, step, mainStep, h1, hlt, hj, h2, copy]

theorem exec_join_fail {W : World} {cities : List CString} {s : State} {j : Nat}
    {city : CString} (h : Inv W cities s) (hpc : s.pc = .joining j)
    (hlt : j < cities.length) (hcity : cities[j]? = some city) (hc : W.createRet j = 0)
    (hj : W.joinRet j = -1) (hreq : ∀ n, ∃ r, request W n city = .value (some r)) :
    (exec W cities [.worker j, .main] s).pc = .exited (error W msgJoin) := by
  obtain ⟨h1, r, h2⟩ := exec_worker_done h hpc hlt hcity hc hreq
  show (exec W cities ([.worker j] ++ [.main]) s).pc = _
  rw [exec_append]
  generalize exec W cities [.worker j] s = t at h1 h2
  simp [exec, step, mainStep, h1, hlt, hj, h2, msgJoin]

theorem exec_join_req_fail {W : World} {cities : List CString} {s : State} {j : Nat}
    {city : CString} {e : Exit} (h : Inv W cities s) (hpc : s.pc = .joining j)
    (hlt : j < cities.length) (hcity : cities[j]? = some city) (hc : W.createRet j = 0)
    (hreq : ∀ n, request W n city = .exit e) :
    (exec W cities [.worker j] s).pc = .exited e := by
  have hp := h.phase
  rw [hpc] at hp
  obtain ⟨_, _, _, _, _, _, hcr⟩ := hp
  cases ht : s.threads j with
  | absent => exact absurd ht ((hcr j hlt).2 hc)
  | running =>
    simp [exec, step, workerStep, hpc, Pc.live, ht, hcity, hreq]
  | done res =>
    obtain ⟨n, city', h1, h2⟩ := h.done_res j res ht
    rw [hcity] at h1
    cases h1
    rw [hreq n] at h2
    cases h2

theorem getElem?_mem_cities {cities : List CString} {k : Nat} {city : CString}
    (h : cities[k]? = some city) : city ∈ cities :=
  List.getElem?_mem h

/-- From the test of the join loop, a run in which nothing fails reaches the
`return`. -/
theorem complete_from_joining {W : World} {cities : List CString}
    (hok : PthreadOk W cities.length) (hsu : Succeeds W cities) :
    ∀ (d j : Nat) (s : State), Inv W cities s → s.pc = .joining j → j + d = cities.length →
      ∃ ext, (exec W cities ext s).pc = .returned := by
  intro d
  induction d with
  | zero =>
    intro j s _ hpc hj
    exact ⟨[.main], exec_main_joining_end hpc (by omega)⟩
  | succ d ih =>
    intro j s h hpc hj
    have hlt : j < cities.length := by omega
    obtain ⟨city, hcity⟩ : ∃ city, cities[j]? = some city :=
      ⟨cities[j], List.getElem?_eq_getElem hlt⟩
    have hstep := exec_join_ok h hpc hlt hcity (hok j hlt).1 (hok j hlt).2
      (fun n => hsu n city (getElem?_mem_cities hcity))
    obtain ⟨ext, hext⟩ := ih (j + 1) _ (inv_exec [.worker j, .main] h) hstep (by omega)
    exact ⟨[.worker j, .main] ++ ext, by rw [exec_append]; exact hext⟩

theorem complete_from_creating {W : World} {cities : List CString}
    (hok : PthreadOk W cities.length) (hsu : Succeeds W cities) :
    ∀ (i : Nat) (s : State), Inv W cities s → s.pc = .creating i →
      ∃ ext, (exec W cities ext s).pc = .returned := by
  intro i
  induction i with
  | zero =>
    intro s h hpc
    obtain ⟨ext, hext⟩ := complete_from_joining hok hsu cities.length 0 _
      (inv_exec [.main] h) (exec_main_creating_zero hpc) (by omega)
    exact ⟨[.main] ++ ext, by rw [exec_append]; exact hext⟩
  | succ i ih =>
    intro s h hpc
    have hp := h.phase
    rw [hpc] at hp
    have hi : i < cities.length := hp.1
    have hc : W.createRet i ≠ -1 := by
      rw [(hok i hi).1]
      decide
    obtain ⟨ext, hext⟩ := ih _ (inv_exec [.main] h) (exec_main_creating_succ hpc hc)
    exact ⟨[.main] ++ ext, by rw [exec_append]; exact hext⟩

theorem not_exitCause {W : World} {cities : List CString}
    (hok : PthreadOk W cities.length) (hsu : Succeeds W cities) (e : Exit) :
    ¬ ExitCause W cities e := by
  rintro (⟨k, hk, h, _⟩ | ⟨k, hk, h, _⟩ | ⟨n, k, city, hc, _, h⟩)
  · rw [(hok k hk).1] at h
    exact absurd h (by decide)
  · rw [(hok k hk).2] at h
    exact absurd h (by decide)
  · obtain ⟨r, hr⟩ := hsu n city (getElem?_mem_cities hc)
    rw [hr] at h
    cases h

theorem not_faultCause {W : World} {cities : List CString}
    (hok : PthreadOk W cities.length) (hsu : Succeeds W cities) (f : Fault) :
    ¬ FaultCause W cities f := by
  rintro (⟨n, k, city, hc, _, h⟩ | ⟨k, hk, h, _⟩ | ⟨k, hk, h, _⟩ | ⟨n, k, city, hc, _, h⟩)
  · obtain ⟨r, hr⟩ := hsu n city (getElem?_mem_cities hc)
    rw [hr] at h
    cases h
  · exact h (hok k hk).1
  · exact h (hok k hk).2
  · obtain ⟨r, hr⟩ := hsu n city (getElem?_mem_cities hc)
    rw [hr] at h
    cases h

/-- When no operation fails, every run of `weather_work`, however far it has got
and under whatever schedule, can be continued to the `return`. -/
theorem complete {W : World} {cities : List CString}
    (hok : PthreadOk W cities.length) (hsu : Succeeds W cities) (sched : List Choice) :
    ∃ ext, (weather_work W cities (sched ++ ext)).pc = .returned := by
  have h := inv_weather_work W cities sched
  have key : ∃ ext, (exec W cities ext (weather_work W cities sched)).pc = .returned := by
    cases hpc : (weather_work W cities sched).pc with
    | creating i => exact complete_from_creating hok hsu i _ h hpc
    | joining j =>
      have hp := h.phase
      rw [hpc] at hp
      have hj : j ≤ cities.length := hp.1
      exact complete_from_joining hok hsu (cities.length - j) j _ h hpc (by omega)
    | returned => exact ⟨[], hpc⟩
    | exited e =>
      have hp := h.phase
      rw [hpc] at hp
      exact absurd hp (not_exitCause hok hsu e)
    | fault f =>
      have hp := h.phase
      rw [hpc] at hp
      exact absurd hp (not_faultCause hok hsu f)
  obtain ⟨ext, hext⟩ := key
  exact ⟨ext, by rw [weather_work_append]; exact hext⟩

set_option maxRecDepth 100000 in
theorem sprintf_CMD1 (city : CString) : sprintf CMD1 [city] = cmd1Text ++ city := by
  have h : sprintf CMD1 [city] = cmd1Text ++ (city ++ []) := rfl
  rw [h, List.append_nil]

set_option maxRecDepth 100000 in
theorem CMD1_eq : CMD1 = cmd1Text ++ "%s".toList := by decide

theorem command_eq (city : CString) : command city = cmd1Text ++ city ++ CMD2 := by
  simp [command, strcat, sprintf_CMD1]

set_option maxRecDepth 100000 in
theorem cmd1Text_length : cmd1Text.length = 58 := by decide

set_option maxRecDepth 100000 in
theorem CMD2_length : CMD2.length = 144 := by decide

theorem command_length (city : CString) : (command city).length = city.length + 202 := by
  rw [command_eq, List.length_append, List.length_append, cmd1Text_length, CMD2_length]
  omega

theorem request_exit {W : World} {n : Nat} {city : CString} {e : Exit}
    (h : request W n city = .exit e) : e = error W msgRun := by
  simp only [request] at h
  split at h
  · cases h
  · split at h
    · cases h
      rfl
    · split at h
      · cases h
      · split at h <;> cases h

theorem request_cmd_overrun (W : World) (n : Nat) (key : CString) (h : 53 < key.length) :
    request W n key = .fault .cmd_overrun := by
  have hl := command_length key
  simp only [request]
  rw [if_pos]
  simp only [STRLEN]
  omega

theorem request_not_cmd_overrun (W : World) (n : Nat) (key : CString) (h : key.length ≤ 53) :
    request W n key ≠ .fault .cmd_overrun := by
  have hl := command_length key
  simp only [request]
  rw [if_neg (by simp only [STRLEN]; omega)]
  split
  · simp
  · split
    · simp
    · split <;> simp

theorem request_world_congr (W W' : World) (n : Nat) (key : CString)
    (hs : W'.strerror = W.strerror)
    (hp : W'.popen n (cmd1Text ++ key ++ CMD2) = W.popen n (cmd1Text ++ key ++ CMD2)) :
    request W' n key = request W n key := by
  simp only [request, command_eq, hp, error, hs]

theorem empty_run {W : World} {s : State} (h : Inv W [] s) :
    s.response = [] ∧ s.ops = [] ∧ s.writes = [] ∧ s.requests = [] ∧
      (∀ i, s.threads i = .absent) ∧
      (s.pc = .creating 0 ∨ s.pc = .joining 0 ∨ s.pc = .returned) := by
  have hreq : s.requests = [] := by
    refine List.eq_nil_iff_forall_not_mem.2 (fun p hp => ?_)
    have := h.req_arg p hp
    simp at this
  have hthr : ∀ i, s.threads i = .absent := by
    intro i
    by_contra hcon
    have := (h.started i hcon).1
    simp at this
  have hp := h.phase
  cases hpc : s.pc with
  | creating i =>
    rw [hpc] at hp
    obtain ⟨hi, hops, hw, hr, _, _⟩ := hp
    have hi0 : i = 0 := by simpa using hi
    subst hi0
    refine ⟨by simpa using hr, by simpa [createOps] using hops, hw, hreq, hthr, Or.inl rfl⟩
  | joining j =>
    rw [hpc] at hp
    obtain ⟨hj, hops, hw, hlen, _, _, _⟩ := hp
    have hj0 : j = 0 := by simpa using hj
    subst hj0
    refine ⟨List.length_eq_zero.1 hlen, by simpa [createOps, joinOps] using hops,
      by simpa using hw, hreq, hthr, Or.inr (Or.inl rfl)⟩
  | returned =>
    rw [hpc] at hp
    obtain ⟨_, hops, hw, hlen, _, _, _⟩ := hp
    refine ⟨List.length_eq_zero.1 hlen, by simpa [createOps, joinOps] using hops,
      by simpa using hw, hreq, hthr, Or.inr (Or.inr rfl)⟩
  | exited e =>
    rw [hpc] at hp
    rcases hp with ⟨k, hk, _⟩ | ⟨k, hk, _⟩ | ⟨n, k, city, hc, _⟩
    · simp at hk
    · simp at hk
    · simp at hc
  | fault f =>
    rw [hpc] at hp
    rcases hp with ⟨n, k, city, hc, _⟩ | ⟨k, hk, _⟩ | ⟨k, hk, _⟩ | ⟨n, k, city, hc, _⟩
    · simp at hc
    · simp at hk
    · simp at hk
    · simp at hc

theorem empty_run_returns {W : World} {s : State}
    (h : s.pc = .creating 0 ∨ s.pc = .joining 0 ∨ s.pc = .returned) :
    (exec W [] [.main, .main] s).pc = .returned := by
  rcases h with h | h | h <;> simp [exec, step, mainStep, h]

theorem mainStep_frame {W : World} {cities : List CString} {s s' : State} {k i : Nat}
    (hpc : s.pc = .joining k) (hs : mainStep W cities s = some s') (hi : i ≠ k) :
    s'.response[i]? = s.response[i]? := by
  simp only [mainStep, hpc] at hs
  split_ifs at hs
  · split at hs
    · simp only [copy, Option.some.injEq] at hs
      split at hs <;> subst hs
      · rfl
      · exact List.getElem?_set_ne (Ne.symm hi)
    · cases hs
    · cases hs
      rfl
  · cases hs
    rfl
  · simp only [copy, Option.some.injEq] at hs
    split at hs <;> subst hs
    · rfl
    · exact List.getElem?_set_ne (Ne.symm hi)
  · cases hs
    rfl

theorem workerStep_frame {W : World} {cities : List CString} {s s' : State} {j : Nat}
    (hs : workerStep W cities j s = some s') : s'.response = s.response := by
  simp only [workerStep] at hs
  split_ifs at hs
  split at hs
  · split at hs <;> cases hs <;> rfl
  · cases hs

theorem exec_frame {W : World} {cities : List CString} {s : State} {k i : Nat}
    (hpc : s.pc = .joining k ∨ s.pc = .returned) (c : Choice) (hi : i ≠ k) :
    (exec W cities [c] s).response[i]? = s.response[i]? := by
  simp only [exec]
  cases hs : step W cities c s with
  | none => rfl
  | some s' =>
    cases c with
    | main =>
      rcases hpc with hpc | hpc
      · exact mainStep_frame hpc hs hi
      · simp [step, mainStep, hpc] at hs
    | worker j =>
      simp only [Option.getD]
      rw [workerStep_frame hs]

theorem lt_of_getElem?_some {cities : List CString} {k : Nat} {city : CString}
    (h : cities[k]? = some city) : k < cities.length := by
  by_contra hcon
  rw [List.getElem?_eq_none (by omega)] at h
  cases h

theorem joined_aligned {W : World} {cities : List CString} {s : State} {j : Nat}
    (h : Inv W cities s) (hp : JoinInv W cities s j) (i : Nat) (hi : i < j)
    (hj : W.joinRet i = 0) :
    ∃ n city r, cities[i]? = some city ∧ request W n city = .value (some r) ∧
      s.threads i = .done (some r) ∧ s.response[i]? = some (some r) := by
  obtain ⟨_, _, _, _, _, hdone, _⟩ := hp
  obtain ⟨r, h1, h2⟩ := (hdone i hi).2 hj
  obtain ⟨n, city, h3, h4⟩ := h.done_res i _ h1
  exact ⟨n, city, r, h3, h4, h1, h2⟩

theorem okWorld_pthreadOk (line : Nat → List Char) (N : Nat) : PthreadOk (okWorld line) N :=
  fun _ _ => ⟨rfl, rfl⟩

theorem echoWorld_pthreadOk (N : Nat) : PthreadOk echoWorld N :=
  fun _ _ => ⟨rfl, rfl⟩

set_option maxRecDepth 100000 in
theorem echoWorld_request (n : Nat) (key : CString) (h : key ∈ twoCities) :
    request echoWorld n key = .value (some (key ++ ",20,clear".toList)) := by
  simp only [twoCities, List.mem_cons, List.mem_singleton, List.not_mem_nil, or_false] at h
  rcases h with rfl | rfl <;> rfl

theorem echoWorld_succeeds : Succeeds echoWorld twoCities :=
  fun n key h => ⟨_, echoWorld_request n key h⟩

set_option maxRecDepth 100000 in
theorem failAt_request_other (n : Nat) :
    request (failAt 0) n "Tokyo".toList = .value (some "x,1,y".toList) ∧
    request (failAt 1) n "Paris".toList = .value (some "x,1,y".toList) :=
  ⟨rfl, rfl⟩

set_option maxRecDepth 100000 in
theorem failAt_request_bad (n : Nat) :
    request (failAt 0) n "Paris".toList = .exit (error (failAt 0) msgRun) ∧
    request (failAt 1) n "Tokyo".toList = .exit (error (failAt 1) msgRun) :=
  ⟨rfl, rfl⟩

set_option maxRecDepth 100000 in
theorem failAt_runs :
    (weather_work (failAt 0) twoCities sched2).pc = .exited (error (failAt 0) msgRun) ∧
    (weather_work (failAt 1) twoCities sched2).pc = .exited (error (failAt 0) msgRun) := by
  decide

/-- C1: when every pthread call succeeds and `request` returns the record
`f key` for every key of the sequence, each run of `weather_work`, under any
schedule of the main thread and the workers, can be continued to the return,
and a run that has returned gives exactly one record per key, slot `i` holding
the record `f keys[i]`. -/
theorem weather_work_index_aligned (W : World) (cities : List CString) (f : CString → CString)
    (sched : List Choice) (hok : PthreadOk W cities.length)
    (hf : ∀ n key, key ∈ cities → request W n key = .value (some (f key))) :
    (∃ ext, (weather_work W cities (sched ++ ext)).pc = .returned) ∧
    ((weather_work W cities sched).pc = .returned →
      (weather_work W cities sched).response.length = cities.length ∧
      (∀ (i : Nat) (city : CString), cities[i]? = some city →
        (weather_work W cities sched).response[i]? = some (some (f city))) ∧
      (weather_work W cities sched).response = cities.map (fun key => some (f key))) := by
  have h := inv_weather_work W cities sched
  refine ⟨complete hok (fun n key hk => ⟨_, hf n key hk⟩) sched, fun hpc => ?_⟩
  have hp := h.phase
  rw [hpc] at hp
  have hidx : ∀ (i : Nat) (city : CString), cities[i]? = some city →
      (weather_work W cities sched).response[i]? = some (some (f city)) := by
    intro i city hc
    have hi := lt_of_getElem?_some hc
    obtain ⟨n, city', r, h1, h2, _, h4⟩ := joined_aligned h hp i hi (hok i hi).2
    rw [hc] at h1
    cases h1
    rw [hf n city (getElem?_mem_cities hc)] at h2
    cases h2
    exact h4
  refine ⟨hp.2.2.2.1, hidx, ?_⟩
  apply List.ext_getElem?
  intro i
  by_cases hi : i < cities.length
  · rw [hidx i cities[i] (List.getElem?_eq_getElem hi)]
    simp [List.getElem?_eq_getElem hi]
  · rw [List.getElem?_eq_none (by rw [hp.2.2.2.1]; omega),
      List.getElem?_eq_none (by simp; omega)]

set_option maxRecDepth 100000 in
theorem weather_work_index_aligned_witness :
    PthreadOk echoWorld twoCities.length ∧
    (weather_work echoWorld twoCities sched2).pc = .returned ∧
    (weather_work echoWorld twoCities sched2).response =
      twoCities.map (fun key => some (key ++ ",20,clear".toList)) :=
  ⟨echoWorld_pthreadOk _, by decide,
    ((weather_work_index_aligned echoWorld twoCities (fun key => key ++ ",20,clear".toList)
      sched2 (echoWorld_pthreadOk _) echoWorld_request).2 (by decide)).2.2⟩

/-- C2: with an empty key sequence, under every schedule and in every world,
the result array is empty, no pthread operation is performed (neither loop body
runs), no request is made, no slot is written, and the main thread returns
after its two loop tests. -/
theorem weather_work_empty (W : World) (sched : List Choice) :
    (weather_work W [] sched).response = [] ∧
    (weather_work W [] sched).ops = [] ∧
    (weather_work W [] sched).writes = [] ∧
    (weather_work W [] sched).requests = [] ∧
    (∀ i, (weather_work W [] sched).threads i = .absent) ∧
    (weather_work W [] (sched ++ [.main, .main])).pc = .returned ∧
    (weather_work W [] (sched ++ [.main, .main])).response = [] := by
  obtain ⟨h1, h2, h3, h4, h5, h6⟩ := empty_run (inv_weather_work W [] sched)
  refine ⟨h1, h2, h3, h4, h5, ?_, (empty_run (inv_weather_work W [] _)).1⟩
  rw [weather_work_append]
  exact empty_run_returns h6

theorem fscanf_whole_line (line rest : List Char) (hne : line ≠ [])
    (hnl : ∀ c ∈ line, c ≠ '\n') :
    fscanf (line ++ '\n' :: rest) = some line := by
  have ht : (line ++ '\n' :: rest).takeWhile (fun c => decide (c ≠ '\n')) = line := by
    rw [List.takeWhile_append_of_pos (by simpa using hnl)]
    simp
  simp only [fscanf, ht, hne, if_false]

/-- C4 (the code overruns): for a response line of 256 characters `fscanf`
matches the whole line and stores 257 bytes, one more than the `STRLEN` bytes of
the buffer `res`, and `request` leaves defined behaviour; whatever the length
of a line, all of it is stored with its NUL, nothing is truncated. -/
theorem request_long_line_overruns :
    fscanf (longLine ++ ['\n']) = some longLine ∧
    storedBytes (longLine ++ ['\n']) = 257 ∧
    STRLEN < storedBytes (longLine ++ ['\n']) ∧
    request (okWorld fun _ => longLine) 0 "Paris".toList = .fault .res_overrun ∧
    (∀ line rest : List Char, line ≠ [] → (∀ c ∈ line, c ≠ '\n') →
      storedBytes (line ++ '\n' :: rest) = line.length + 1) := by
  refine ⟨?_, ?_, ?_, ?_, fun line rest hne hnl => ?_⟩
  · set_option maxRecDepth 100000 in decide
  · set_option maxRecDepth 100000 in decide
  · set_option maxRecDepth 100000 in decide
  · set_option maxRecDepth 100000 in decide
  · simp only [storedBytes, fscanf_whole_line line rest hne hnl]

set_option maxRecDepth 100000 in
/-- C5 (the code reports nothing): when the command prints no line, `request`
calls no `error`, it returns its buffer with nothing stored in it; the join of
`weather_work` succeeds and the `strcpy` then reads that buffer. -/
theorem request_empty_response_unreported :
    fscanf [] = none ∧
    request silentWorld 0 "Paris".toList = .value none ∧
    (weather_work silentWorld ["Paris".toList] [.main, .main, .worker 0]).threads 0
      = .done none ∧
    (weather_work silentWorld ["Paris".toList] [.main, .main, .worker 0, .main]).ops
      = [.create 0, .join 0] ∧
    (weather_work silentWorld ["Paris".toList] [.main, .main, .worker 0, .main]).pc
      = .fault .uninit_read := by
  decide

/-- C7: when no operation fails, every run of `weather_work` can be continued to
the return, and the pthread operations of the main thread are then exactly
create(N-1), ..., create(0), join(0), ..., join(N-1); while the creation loop is
at `i` they are create(N-1), ..., create(i), and while the join loop is at `j`
all N creations followed by join(0), ..., join(j-1). -/
theorem worker_ops_order (W : World) (cities : List CString) (sched : List Choice)
    (hok : PthreadOk W cities.length) (hsu : Succeeds W cities) :
    (∃ ext, (weather_work W cities (sched ++ ext)).pc = .returned) ∧
    ((weather_work W cities sched).pc = .returned →
      (weather_work W cities sched).ops =
        (List.range cities.length).reverse.map Op.create ++
          (List.range cities.length).map Op.join) ∧
    (∀ i, (weather_work W cities sched).pc = .creating i →
      (weather_work W cities sched).ops =
        (List.range' i (cities.length - i)).reverse.map Op.create) ∧
    (∀ j, (weather_work W cities sched).pc = .joining j →
      (weather_work W cities sched).ops =
        (List.range cities.length).reverse.map Op.create ++ (List.range j).map Op.join) := by
  have h := inv_weather_work W cities sched
  have hp := h.phase
  refine ⟨complete hok hsu sched, ?_, ?_, ?_⟩
  · intro hpc
    rw [hpc] at hp
    rw [hp.2.1, createOps_zero]
    rfl
  · intro i hpc
    rw [hpc] at hp
    rw [hp.2.1]
    rfl
  · intro j hpc
    rw [hpc] at hp
    rw [hp.2.1, createOps_zero]
    rfl

set_option maxRecDepth 100000 in
theorem worker_ops_order_witness :
    PthreadOk echoWorld twoCities.length ∧ Succeeds echoWorld twoCities ∧
    (weather_work echoWorld twoCities sched2).ops =
      [.create 1, .create 0, .join 0, .join 1] :=
  ⟨echoWorld_pthreadOk _, echoWorld_succeeds,
    ((worker_ops_order echoWorld twoCities sched2 (echoWorld_pthreadOk _)
      echoWorld_succeeds).2.1 (by decide)).trans (by decide)⟩

/-- C8: when every join succeeds, at the test of the join loop after `k`
iterations (and, with `k = N`, after the return) the slots written so far are
0, ..., k-1 in this order, each once; slot `i < k` holds the record returned by
worker `i`, which is the result of `request` on `keys[i]`; the slots from `k`
on are unwritten; and the next step of any thread changes no slot other
than `k`. -/
theorem slots_written_once (W : World) (cities : List CString) (sched : List Choice) (k : Nat)
    (hj : ∀ i, i < cities.length → W.joinRet i = 0)
    (hpc : (weather_work W cities sched).pc = .joining k ∨
      ((weather_work W cities sched).pc = .returned ∧ k = cities.length)) :
    k ≤ cities.length ∧
    (weather_work W cities sched).writes = List.range k ∧
    (∀ i, i < k → ∃ n city r, cities[i]? = some city ∧
      request W n city = .value (some r) ∧
      (weather_work W cities sched).threads i = .done (some r) ∧
      (weather_work W cities sched).response[i]? = some (some r)) ∧
    (∀ i, k ≤ i → i < cities.length →
      (weather_work W cities sched).response[i]? = some none) ∧
    (∀ (c : Choice) (i : Nat), i ≠ k →
      (weather_work W cities (sched ++ [c])).response[i]? =
        (weather_work W cities sched).response[i]?) := by
  have h := inv_weather_work W cities sched
  have hp : JoinInv W cities (weather_work W cities sched) k := by
    have hp := h.phase
    rcases hpc with hpc | ⟨hpc, hk⟩
    · rw [hpc] at hp
      exact hp
    · rw [hpc] at hp
      rw [hk]
      exact hp
  refine ⟨hp.1, hp.2.2.1, ?_, hp.2.2.2.2.1, ?_⟩
  · intro i hi
    exact joined_aligned h hp i hi (hj i (by have := hp.1; omega))
  · intro c i hi
    rw [weather_work_append]
    exact exec_frame (hpc.imp id And.left) c hi

set_option maxRecDepth 100000 in
theorem slots_written_once_witness :
    (∀ i, i < twoCities.length → echoWorld.joinRet i = 0) ∧
    (weather_work echoWorld twoCities [.main, .main, .main, .worker 0, .main]).pc = .joining 1 ∧
    (weather_work echoWorld twoCities [.main, .main, .main, .worker 0, .main]).writes = [0] ∧
    (weather_work echoWorld twoCities [.main, .main, .main, .worker 0, .main]).response
      = [some "Paris,20,clear".toList, none] :=
  ⟨fun _ _ => rfl, by decide,
    (slots_written_once echoWorld twoCities [.main, .main, .main, .worker 0, .main] 1
      (fun _ _ => rfl) (Or.inl (by decide))).2.1,
    by decide⟩

/-- C10: the command has `len(key) + 202` bytes, 58 from `CMD1` and 144 from
`CMD2`; with its NUL it fits the `STRLEN` bytes of `cmd` exactly when the key
has at most 53 bytes, and for every longer key `request` overruns `cmd`. -/
theorem command_fits_iff (key : CString) :
    cmd1Text.length = 58 ∧ CMD2.length = 144 ∧ STRLEN = 256 ∧
    (command key).length = key.length + 202 ∧
    ((command key).length + 1 ≤ STRLEN ↔ key.length ≤ 53) ∧
    (53 < key.length → ∀ W n, request W n key = .fault .cmd_overrun) ∧
    (key.length ≤ 53 → ∀ W n, request W n key ≠ .fault .cmd_overrun) := by
  refine ⟨cmd1Text_length, CMD2_length, rfl, command_length key, ?_,
    fun h W n => request_cmd_overrun W n key h, fun h W n => request_not_cmd_overrun W n key h⟩
  rw [command_length]
  simp only [STRLEN]
  omega

set_option maxRecDepth 100000 in
theorem command_fits_iff_witness :
    53 < (List.replicate 54 'a').length ∧
    request echoWorld 0 (List.replicate 54 'a') = .fault .cmd_overrun ∧
    (List.replicate 53 'a').length ≤ 53 ∧
    request echoWorld 0 (List.replicate 53 'a') ≠ .fault .cmd_overrun :=
  ⟨by decide, (command_fits_iff (List.replicate 54 'a')).2.2.2.2.2.1 (by decide) echoWorld 0,
    by decide, (command_fits_iff (List.replicate 53 'a')).2.2.2.2.2.2 (by decide) echoWorld 0⟩

theorem request_exit_msg {W : World} {n : Nat} {city : CString}
    (h : ∃ e, request W n city = .exit e) : request W n city = .exit (error W msgRun) := by
  obtain ⟨e, he⟩ := h
  rw [he, request_exit he]

theorem tested_not_faultCause {W : World} {cities : List CString} (ht : Tested W cities)
    (f : Fault) : ¬ FaultCause W cities f := by
  rintro (⟨n, i, city, hc, _, h⟩ | ⟨i, hi, h1, h2⟩ | ⟨i, hi, h1, h2⟩ | ⟨n, i, city, hc, _, h⟩)
  · rcases ht.2 city (getElem?_mem_cities hc) with hs | hs
    · obtain ⟨r, hr⟩ := hs n
      rw [hr] at h
      cases h
    · obtain ⟨e, he⟩ := hs n
      rw [he] at h
      cases h
  · rcases (ht.1 i hi).1 with h | h
    · exact h1 h
    · exact h2 h
  · rcases (ht.1 i hi).2 with h | h
    · exact h1 h
    · exact h2 h
  · rcases ht.2 city (getElem?_mem_cities hc) with hs | hs
    · obtain ⟨r, hr⟩ := hs n
      rw [hr] at h
      cases h
    · obtain ⟨e, he⟩ := hs n
      rw [he] at h
      cases h

theorem tested_from_joining {W : World} {cities : List CString} (ht : Tested W cities) :
    ∀ (d j : Nat) (s : State), Inv W cities s → s.pc = .joining j → j + d = cities.length →
      ∃ ext, (exec W cities ext s).pc = .returned ∨ ∃ e, (exec W cities ext s).pc = .exited e := by
  intro d
  induction d with
  | zero =>
    intro j s _ hpc hj
    exact ⟨[.main], Or.inl (exec_main_joining_end hpc (by omega))⟩
  | succ d ih =>
    intro j s h hpc hj
    have hlt : j < cities.length := by omega
    have hp := h.phase
    rw [hpc] at hp
    have hcity : cities[j]? = some cities[j] := List.getElem?_eq_getElem hlt
    have hc0 : W.createRet j = 0 := by
      rcases (ht.1 j hlt).1 with h0 | h0
      · exact h0
      · exact absurd h0 (hp.2.2.2.2.2.2 j hlt).1
    rcases ht.2 _ (getElem?_mem_cities hcity) with hs | hs
    · rcases (ht.1 j hlt).2 with hj0 | hj0
      · have hstep := exec_join_ok h hpc hlt hcity hc0 hj0 hs
        obtain ⟨ext, hext⟩ := ih (j + 1) _ (inv_exec [.worker j, .main] h) hstep (by omega)
        exact ⟨[.worker j, .main] ++ ext, by rw [exec_append]; exact hext⟩
      · exact ⟨[.worker j, .main], Or.inr ⟨_, exec_join_fail h hpc hlt hcity hc0 hj0 hs⟩⟩
    · exact ⟨[.worker j], Or.inr ⟨_, exec_join_req_fail h hpc hlt hcity hc0
        (fun n => request_exit_msg (hs n))⟩⟩

theorem tested_from_creating {W : World} {cities : List CString} (ht : Tested W cities) :
    ∀ (i : Nat) (s : State), Inv W cities s → s.pc = .creating i →
      ∃ ext, (exec W cities ext s).pc = .returned ∨ ∃ e, (exec W cities ext s).pc = .exited e := by
  intro i
  induction i with
  | zero =>
    intro s h hpc
    obtain ⟨ext, hext⟩ := tested_from_joining ht cities.length 0 _
      (inv_exec [.main] h) (exec_main_creating_zero hpc) (by omega)
    exact ⟨[.main] ++ ext, by rw [exec_append]; exact hext⟩
  | succ i ih =>
    intro s h hpc
    by_cases hc : W.createRet i = -1
    · exact ⟨[.main], Or.inr ⟨_, exec_main_creating_fail hpc hc⟩⟩
    · obtain ⟨ext, hext⟩ := ih _ (inv_exec [.main] h) (exec_main_creating_succ hpc hc)
      exact ⟨[.main] ++ ext, by rw [exec_append]; exact hext⟩

/-- When every failure is one the program tests for, every run can be continued
to the `return` or to an `exit`. -/
theorem tested_complete {W : World} {cities : List CString} (ht : Tested W cities)
    (sched : List Choice) :
    ∃ ext, (weather_work W cities (sched ++ ext)).pc = .returned ∨
      ∃ e, (weather_work W cities (sched ++ ext)).pc = .exited e := by
  have h := inv_weather_work W cities sched
  have key : ∃ ext, (exec W cities ext (weather_work W cities sched)).pc = .returned ∨
      ∃ e, (exec W cities ext (weather_work W cities sched)).pc = .exited e := by
    have hp := h.phase
    cases hpc : (weather_work W cities sched).pc with
    | creating i => exact tested_from_creating ht i _ h hpc
    | joining j =>
      rw [hpc] at hp
      have hj : j ≤ cities.length := hp.1
      exact tested_from_joining ht (cities.length - j) j _ h hpc (by omega)
    | returned => exact ⟨[], Or.inl hpc⟩
    | exited e => exact ⟨[], Or.inr ⟨e, hpc⟩⟩
    | fault f =>
      rw [hpc] at hp
      exact absurd hp (tested_not_faultCause ht f)
  obtain ⟨ext, hext⟩ := key
  exact ⟨ext, by rw [weather_work_append]; exact hext⟩

theorem oneFailure_lt {W : World} {cities : List CString} {k : Nat} {c : Call}
    (h : OneFailure W cities k c) : k < cities.length := by
  cases c with
  | create => exact h.1
  | request =>
    obtain ⟨_, city, hc, _⟩ := h
    exact lt_of_getElem?_some hc
  | join => exact h.1

theorem oneFailure_tested {W : World} {cities : List CString} {k : Nat} {c : Call}
    (h : OneFailure W cities k c) : Tested W cities := by
  cases c with
  | create =>
    obtain ⟨_, hk, ho, hj, hs⟩ := h
    refine ⟨fun i hi => ⟨?_, Or.inl (hj i hi)⟩, fun key hkey => Or.inl (fun n => hs n key hkey)⟩
    by_cases hik : i = k
    · exact Or.inr (hik ▸ hk)
    · exact Or.inl (ho i hi hik)
  | request =>
    obtain ⟨hok, city, _, hf, hs⟩ := h
    refine ⟨fun i hi => ⟨Or.inl (hok i hi).1, Or.inl (hok i hi).2⟩, fun key hkey => ?_⟩
    by_cases hkc : key = city
    · exact Or.inr (hkc ▸ hf)
    · exact Or.inl (hs key hkey hkc)
  | join =>
    obtain ⟨_, hk, ho, hc, hs⟩ := h
    refine ⟨fun i hi => ⟨Or.inl (hc i hi), ?_⟩, fun key hkey => Or.inl (fun n => hs n key hkey)⟩
    by_cases hik : i = k
    · exact Or.inr (hik ▸ hk)
    · exact Or.inl (ho i hi hik)

/-- The join loop never gets past the worker whose call fails. -/
theorem oneFailure_join_le {W : World} {cities : List CString} {k j : Nat} {c : Call}
    {s : State} (hf : OneFailure W cities k c) (h : Inv W cities s)
    (hj : JoinInv W cities s j) : j ≤ k := by
  by_contra hcon
  have hkj : k < j := by omega
  obtain ⟨_, _, _, _, _, hdone, hcr⟩ := hj
  cases c with
  | create => exact (hcr k hf.1).1 hf.2.1
  | request =>
    obtain ⟨hok, city, hc, hfail, _⟩ := hf
    obtain ⟨r, hthr, _⟩ := (hdone k hkj).2 (hok k (lt_of_getElem?_some hc)).2
    obtain ⟨n, city', hc', hreq⟩ := h.done_res k _ hthr
    rw [hc] at hc'
    cases hc'
    obtain ⟨e, he⟩ := hfail n
    rw [he] at hreq
    cases hreq
  | join => exact (hdone k hkj).1 hf.2.1

theorem oneFailure_not_returned {W : World} {cities : List CString} {k : Nat} {c : Call}
    (hf : OneFailure W cities k c) (sched : List Choice) :
    (weather_work W cities sched).pc ≠ .returned := by
  intro hpc
  have h := inv_weather_work W cities sched
  have hp := h.phase
  rw [hpc] at hp
  have h1 := oneFailure_join_le hf h hp
  have := oneFailure_lt hf
  omega

/-- In a world with one failure an `exit` carries the message of the call that
fails. -/
theorem oneFailure_exit {W : World} {cities : List CString} {k : Nat} {c : Call} {e : Exit}
    (hf : OneFailure W cities k c) (h : ExitCause W cities e) : e = error W c.msg := by
  rcases h with ⟨i, hi, hc, he⟩ | ⟨i, hi, hc, he⟩ | ⟨n, i, city, hcity, _, hreq⟩
  · cases c with
    | create => exact he
    | request =>
      rw [(hf.1 i hi).1] at hc
      exact absurd hc (by decide)
    | join =>
      rw [hf.2.2.2.1 i hi] at hc
      exact absurd hc (by decide)
  · cases c with
    | create =>
      rw [hf.2.2.2.1 i hi] at hc
      exact absurd hc (by decide)
    | request =>
      rw [(hf.1 i hi).2] at hc
      exact absurd hc (by decide)
    | join => exact he
  · cases c with
    | create =>
      obtain ⟨r, hr⟩ := hf.2.2.2.2 n city (getElem?_mem_cities hcity)
      rw [hr] at hreq
      cases hreq
    | request => exact request_exit hreq
    | join =>
      obtain ⟨r, hr⟩ := hf.2.2.2.2 n city (getElem?_mem_cities hcity)
      rw [hr] at hreq
      cases hreq

theorem oneFailure_exit_run {W : World} {cities : List CString} {k : Nat} {c : Call}
    (hf : OneFailure W cities k c) (sched : List Choice) (e : Exit)
    (hpc : (weather_work W cities sched).pc = .exited e) : e = error W c.msg := by
  have hp := (inv_weather_work W cities sched).phase
  rw [hpc] at hp
  exact oneFailure_exit hf hp

theorem oneFailure_not_fault {W : World} {cities : List CString} {k : Nat} {c : Call}
    (hf : OneFailure W cities k c) (sched : List Choice) (f : Fault) :
    (weather_work W cities sched).pc ≠ .fault f := by
  intro hpc
  have hp := (inv_weather_work W cities sched).phase
  rw [hpc] at hp
  exact tested_not_faultCause (oneFailure_tested hf) f hp

/-- In a world with one failure every run can be continued to the `exit` that
reports the call that fails. -/
theorem oneFailure_reaches_exit {W : World} {cities : List CString} {k : Nat} {c : Call}
    (hf : OneFailure W cities k c) (sched : List Choice) :
    ∃ ext, (weather_work W cities (sched ++ ext)).pc = .exited (error W c.msg) := by
  obtain ⟨ext, h | ⟨e, he⟩⟩ := tested_complete (oneFailure_tested hf) sched
  · exact absurd h (oneFailure_not_returned hf _)
  · exact ⟨ext, by rw [he, oneFailure_exit_run hf _ e he]⟩

theorem step_live {W : World} {cities : List CString} {ch : Choice} {s s' : State}
    (hs : step W cities ch s = some s') : s.pc.live = true := by
  cases ch with
  | main =>
    cases hpc : s.pc <;> simp [step, mainStep, hpc, Pc.live] at hs ⊢
  | worker i =>
    simp only [step, workerStep] at hs
    by_cases hl : s.pc.live = true
    · exact hl
    · simp [hl] at hs

/-- After an `exit` nothing moves. -/
theorem exec_exited {W : World} {cities : List CString} {e : Exit} (ext : List Choice) :
    ∀ (s : State), s.pc = .exited e → exec W cities ext s = s := by
  induction ext with
  | nil => intro s _; rfl
  | cons ch rest ih =>
    intro s hpc
    have hnone : step W cities ch s = none := by
      cases hs : step W cities ch s with
      | none => rfl
      | some s' =>
        have := step_live hs
        simp [hpc, Pc.live] at this
    simp only [exec, hnone, Option.getD]
    exact ih s hpc

theorem mainStep_effect {W : World} {cities : List CString} {s s' : State}
    (hs : mainStep W cities s = some s') :
    s'.requests = s.requests ∧
    (s'.ops = s.ops ∨
      (∃ i, s'.ops = s.ops ++ [.create i] ∧
        (W.createRet i = -1 → s'.pc = .exited (error W msgCreate))) ∨
      (∃ i, s'.ops = s.ops ++ [.join i] ∧
        (W.joinRet i = -1 → s'.pc = .exited (error W msgJoin)))) := by
  cases hpc : s.pc with
  | creating i =>
    cases i with
    | zero =>
      simp only [mainStep, hpc, Option.some.injEq] at hs
      subst hs
      exact ⟨rfl, Or.inl rfl⟩
    | succ i =>
      simp only [mainStep, hpc] at hs
      by_cases hc : W.createRet i = -1
      · simp only [hc, if_true, Option.some.injEq] at hs
        subst hs
        exact ⟨rfl, Or.inr (Or.inl ⟨i, rfl, fun _ => rfl⟩)⟩
      · simp only [hc, if_false, Option.some.injEq] at hs
        subst hs
        exact ⟨rfl, Or.inr (Or.inl ⟨i, rfl, fun h => absurd h hc⟩)⟩
  | joining j =>
    simp only [mainStep, hpc] at hs
    by_cases hlt : j < cities.length
    · simp only [hlt, if_true] at hs
      by_cases h0 : W.joinRet j = 0
      · have hm : W.joinRet j ≠ -1 := by rw [h0]; decide
        simp only [h0, if_true] at hs
        cases ht : s.threads j with
        | absent =>
          simp only [ht, Option.some.injEq] at hs
          subst hs
          exact ⟨rfl, Or.inr (Or.inr ⟨j, rfl, fun h => absurd h hm⟩)⟩
        | running => simp [ht] at hs
        | done res =>
          simp only [ht, Option.some.injEq, copy] at hs
          cases res with
          | none =>
            subst hs
            exact ⟨rfl, Or.inr (Or.inr ⟨j, rfl, fun h => absurd h hm⟩)⟩
          | some r =>
            subst hs
            exact ⟨rfl, Or.inr (Or.inr ⟨j, rfl, fun h => absurd h hm⟩)⟩
      · simp only [h0, if_false] at hs
        by_cases hm : W.joinRet j = -1
        · simp only [hm, if_true, Option.some.injEq] at hs
          subst hs
          exact ⟨rfl, Or.inr (Or.inr ⟨j, rfl, fun _ => rfl⟩)⟩
        · simp only [hm, if_false, Option.some.injEq, copy] at hs
          cases hres : s.result with
          | none =>
            simp only [hres] at hs
            subst hs
            exact ⟨rfl, Or.inr (Or.inr ⟨j, rfl, fun h => absurd h hm⟩)⟩
          | some r =>
            simp only [hres] at hs
            subst hs
            exact ⟨rfl, Or.inr (Or.inr ⟨j, rfl, fun h => absurd h hm⟩)⟩
    · simp only [hlt, if_false, Option.some.injEq] at hs
      subst hs
      exact ⟨rfl, Or.inl rfl⟩
  | returned => simp [mainStep, hpc] at hs
  | exited e => simp [mainStep, hpc] at hs
  | fault f => simp [mainStep, hpc] at hs

theorem workerStep_effect {W : World} {cities : List CString} {s s' : State} {i : Nat}
    (hs : workerStep W cities i s = some s') :
    s'.ops = s.ops ∧ ∃ city, s'.requests = s.requests ++ [(i, city)] ∧
      (∀ e, request W s.requests.length city = .exit e → s'.pc = .exited e) := by
  simp only [workerStep] at hs
  split_ifs at hs
  split at hs
  · rename_i city _ _
    refine ⟨?_, city, ?_⟩
    · split at hs <;> cases hs <;> rfl
    · split at hs
      · rename_i e he
        cases hs
        refine ⟨rfl, fun e' he' => ?_⟩
        rw [he] at he'
        cases he'
        rfl
      · rename_i f hf
        cases hs
        refine ⟨rfl, fun e' he' => ?_⟩
        rw [hf] at he'
        cases he'
      · rename_i res hr
        cases hs
        refine ⟨rfl, fun e' he' => ?_⟩
        rw [hr] at he'
        cases he'
  · cases hs

/-- A failed call ends the run at once: the state is the `exit` with the
message of that call. -/
theorem failed_step {W : World} {cities : List CString} {ch : Choice} {s s' : State}
    (hq : ∀ k c, Failed W s k c → s.pc = .exited (error W c.msg))
    (hs : step W cities ch s = some s') :
    ∀ k c, Failed W s' k c → s'.pc = .exited (error W c.msg) := by
  have hl := step_live hs
  have hno : ∀ k c, ¬ Failed W s k c := by
    intro k c hF
    rw [hq k c hF] at hl
    simp [Pc.live] at hl
  intro k c hF
  cases ch with
  | main =>
    obtain ⟨hreq, hops⟩ := mainStep_effect hs
    cases c with
    | create =>
      obtain ⟨hmem, hret⟩ := hF
      rcases hops with ho | ⟨i, ho, hpc⟩ | ⟨i, ho, _⟩
      · rw [ho] at hmem
        exact absurd ⟨hmem, hret⟩ (hno k .create)
      · rw [ho, List.mem_append] at hmem
        rcases hmem with hmem | hmem
        · exact absurd ⟨hmem, hret⟩ (hno k .create)
        · simp only [List.mem_singleton, Op.create.injEq] at hmem
          subst hmem
          exact hpc hret
      · rw [ho, List.mem_append] at hmem
        rcases hmem with hmem | hmem
        · exact absurd ⟨hmem, hret⟩ (hno k .create)
        · simp at hmem
    | join =>
      obtain ⟨hmem, hret⟩ := hF
      rcases hops with ho | ⟨i, ho, _⟩ | ⟨i, ho, hpc⟩
      · rw [ho] at hmem
        exact absurd ⟨hmem, hret⟩ (hno k .join)
      · rw [ho, List.mem_append] at hmem
        rcases hmem with hmem | hmem
        · exact absurd ⟨hmem, hret⟩ (hno k .join)
        · simp at hmem
      · rw [ho, List.mem_append] at hmem
        rcases hmem with hmem | hmem
        · exact absurd ⟨hmem, hret⟩ (hno k .join)
        · simp only [List.mem_singleton, Op.join.injEq] at hmem
          subst hmem
          exact hpc hret
    | request =>
      obtain ⟨n, city, e, hn, he⟩ := hF
      rw [hreq] at hn
      exact absurd ⟨n, city, e, hn, he⟩ (hno k .request)
  | worker i =>
    obtain ⟨hops, city, hreq, hpc⟩ := workerStep_effect hs
    cases c with
    | create =>
      obtain ⟨hmem, hret⟩ := hF
      rw [hops] at hmem
      exact absurd ⟨hmem, hret⟩ (hno k .create)
    | join =>
      obtain ⟨hmem, hret⟩ := hF
      rw [hops] at hmem
      exact absurd ⟨hmem, hret⟩ (hno k .join)
    | request =>
      obtain ⟨n, city', e, hn, he⟩ := hF
      rw [hreq] at hn
      by_cases hlt : n < s.requests.length
      · rw [List.getElem?_append_left hlt] at hn
        exact absurd ⟨n, city', e, hn, he⟩ (hno k .request)
      · rw [List.getElem?_append_right (by omega)] at hn
        have hn0 : n - s.requests.length = 0 := by
          by_contra hne
          obtain ⟨m, hm⟩ := Nat.exists_eq_succ_of_ne_zero hne
          rw [hm] at hn
          simp at hn
        rw [hn0] at hn
        simp only [List.getElem?_cons_zero, Option.some.injEq, Prod.mk.injEq] at hn
        obtain ⟨_, hcity⟩ := hn
        subst hcity
        have hnl : n = s.requests.length := by omega
        subst hnl
        rw [hpc e he, request_exit he]
        rfl

theorem failed_exec {W : World} {cities : List CString} (sched : List Choice) :
    ∀ (s : State), (∀ k c, Failed W s k c → s.pc = .exited (error W c.msg)) →
      ∀ k c, Failed W (exec W cities sched s) k c →
        (exec W cities sched s).pc = .exited (error W c.msg) := by
  induction sched with
  | nil => intro s hq; exact hq
  | cons ch rest ih =>
    intro s hq
    simp only [exec]
    cases hs : step W cities ch s with
    | none => exact ih s hq
    | some s' => exact ih s' (failed_step hq hs)

theorem failed_exited {W : World} {cities : List CString} (sched : List Choice) (k : Nat)
    (c : Call) (hF : Failed W (weather_work W cities sched) k c) :
    (weather_work W cities sched).pc = .exited (error W c.msg) := by
  refine failed_exec sched (init cities) ?_ k c hF
  intro k c hF
  cases c with
  | create => simp [Failed, init] at hF
  | request => simp [Failed, init] at hF
  | join => simp [Failed, init] at hF

theorem error_report (W : World) (msg : CString) :
    (error W msg).status = 1 ∧
    (error W msg).report = msg ++ ": ".toList ++ W.strerror ++ "\n".toList := by
  refine ⟨rfl, ?_⟩
  have h : (error W msg).report = msg ++ (':' :: ' ' :: (W.strerror ++ ('\n' :: []))) := rfl
  rw [h]
  simp

theorem failAt_zero_one : OneFailure (failAt 0) twoCities 0 .request := by
  refine ⟨fun _ _ => ⟨rfl, rfl⟩, "Paris".toList, rfl, fun n => ⟨_, (failAt_request_bad n).1⟩, ?_⟩
  intro key hkey hne n
  simp only [twoCities, List.mem_cons, List.mem_singleton, List.not_mem_nil, or_false] at hkey
  rcases hkey with rfl | rfl
  · exact absurd rfl hne
  · exact ⟨_, (failAt_request_other n).1⟩

theorem failAt_one_one : OneFailure (failAt 1) twoCities 1 .request := by
  refine ⟨fun _ _ => ⟨rfl, rfl⟩, "Tokyo".toList, rfl, fun n => ⟨_, (failAt_request_bad n).2⟩, ?_⟩
  intro key hkey hne n
  simp only [twoCities, List.mem_cons, List.mem_singleton, List.not_mem_nil, or_false] at hkey
  rcases hkey with rfl | rfl
  · exact ⟨_, (failAt_request_other n).2⟩
  · exact absurd rfl hne

set_option maxRecDepth 100000 in
theorem flaky_failed :
    Failed flakyWorld (weather_work flakyWorld dupCities schedFlaky) 0 .request :=
  ⟨0, "A".toList, error flakyWorld msgRun, by decide, by decide⟩

/-- C3 (as stated, refuted): with the keys Paris and Tokyo, in the world where
only the request of worker 0 fails and in the world where only that of worker 1
fails the run along `sched2` exits with one and the same report, so no reading
of the report gives back the failing index.  And a failure the program does not
test for is not reported at all: when `pthread_create` and `pthread_join` give
the error numbers 11 and 3 for worker 1 the run returns, with the record of
worker 0 in both slots; when the command of worker 1 prints nothing the run
leaves defined behaviour with slot 0 written. -/
theorem failure_report_without_index :
    (OneFailure (failAt 0) twoCities 0 .request ∧ OneFailure (failAt 1) twoCities 1 .request ∧
      ¬ ∃ identify : Exit → Nat, ∀ k, k < 2 →
        ∀ e, (weather_work (failAt k) twoCities sched2).pc = .exited e → identify e = k) ∧
    (errnoWorld.createRet 1 = 11 ∧ errnoWorld.joinRet 1 = 3 ∧
      (weather_work errnoWorld twoCities schedErrno).pc = .returned ∧
      (weather_work errnoWorld twoCities schedErrno).response =
        [some "Paris,20,clear".toList, some "Paris,20,clear".toList]) ∧
    (request mutedWorld 0 "Tokyo".toList = .value none ∧
      (weather_work mutedWorld twoCities sched2).pc = .fault .uninit_read ∧
      (weather_work mutedWorld twoCities sched2).response = [some "x,1,y".toList, none]) := by
  refine ⟨⟨failAt_zero_one, failAt_one_one, ?_⟩, ?_, ?_⟩
  · rintro ⟨identify, h⟩
    have h0 := h 0 (by decide) _ failAt_runs.1
    have h1 := h 1 (by decide) _ failAt_runs.2
    omega
  · set_option maxRecDepth 100000 in decide
  · set_option maxRecDepth 100000 in decide

/-- C3 (amended): when the call `c` of worker `k` (`pthread_create`, the `popen`
of its request, or `pthread_join`) fails in the way the program tests, either
as the one failure of the world or as a failure that has occurred in the run,
then the run can be continued to an `exit`, and in no continuation does
`weather_work` return a result array or leave defined behaviour; the exit has
status 1 and its report is the message of the failed call `c`, a colon,
`strerror(errno)` and a newline: it names the call and carries no index. -/
theorem one_failure_aborts (W : World) (cities : List CString) (k : Nat) (c : Call)
    (sched : List Choice)
    (h : OneFailure W cities k c ∨ Failed W (weather_work W cities sched) k c) :
    (∃ ext, (weather_work W cities (sched ++ ext)).pc = .exited (error W c.msg)) ∧
    (∀ ext, (weather_work W cities (sched ++ ext)).pc ≠ .returned ∧
      (∀ f, (weather_work W cities (sched ++ ext)).pc ≠ .fault f) ∧
      (∀ e, (weather_work W cities (sched ++ ext)).pc = .exited e → e = error W c.msg)) ∧
    (error W c.msg).status = 1 ∧
    (error W c.msg).report = c.msg ++ ": ".toList ++ W.strerror ++ "\n".toList := by
  refine ⟨?_, ?_, error_report W c.msg⟩
  · rcases h with h | h
    · exact oneFailure_reaches_exit h sched
    · exact ⟨[], by rw [List.append_nil]; exact failed_exited sched k c h⟩
  · intro ext
    rcases h with h | h
    · exact ⟨oneFailure_not_returned h _, oneFailure_not_fault h _,
        fun e he => oneFailure_exit_run h _ e he⟩
    · have hpc := failed_exited sched k c h
      have hsame : (weather_work W cities (sched ++ ext)).pc = .exited (error W c.msg) := by
        rw [weather_work_append, exec_exited ext _ hpc]
        exact hpc
      rw [hsame]
      refine ⟨by simp, by simp, fun e he => ?_⟩
      cases he
      rfl

set_option maxRecDepth 100000 in
theorem one_failure_aborts_witness :
    (OneFailure (failAt 1) twoCities 1 .request ∧
      (∃ ext, (weather_work (failAt 1) twoCities ([] ++ ext)).pc =
        .exited (error (failAt 1) Call.request.msg)) ∧
      (error (failAt 1) Call.request.msg).report =
        "Failed to run command\n: Cannot allocate memory\n".toList) ∧
    (Failed flakyWorld (weather_work flakyWorld dupCities schedFlaky) 0 .request ∧
      ∀ ext, (weather_work flakyWorld dupCities (schedFlaky ++ ext)).pc ≠ .returned) :=
  ⟨⟨failAt_one_one,
      (one_failure_aborts (failAt 1) twoCities 1 .request [] (Or.inl failAt_one_one)).1,
      (one_failure_aborts (failAt 1) twoCities 1 .request [] (Or.inl failAt_one_one)).2.2.2.trans
        (by decide)⟩,
    ⟨flaky_failed, fun ext =>
      ((one_failure_aborts flakyWorld dupCities 0 .request schedFlaky
        (Or.inr flaky_failed)).2.1 ext).1⟩⟩

/-- C9: for every key the command `request` builds is the text of `CMD1` before
its `%s`, then the key unchanged, then `CMD2`, and different keys give different
commands; `request` checks nothing about the key: for every key that fits the
buffer it hands exactly this command to `popen` and its outcome is what the
stream of that command gives (NULL: the exit of `error`; a line: the record),
and for a longer key the command built overruns `cmd`. -/
theorem command_verbatim (key : CString) :
    CMD1 = cmd1Text ++ "%s".toList ∧
    command key = cmd1Text ++ key ++ CMD2 ∧
    (∀ key', command key' = command key → key' = key) ∧
    (∀ (W : World) (n : Nat), key.length ≤ 53 →
      request W n key =
        match W.popen n (cmd1Text ++ key ++ CMD2) with
        | none => .exit (error W msgRun)
        | some out =>
          match fscanf out with
          | none => .value none
          | some line =>
            if STRLEN < line.length + 1 then .fault .res_overrun
            else .value (some (cstr line))) ∧
    (∀ (W : World) (n : Nat), 53 < key.length → request W n key = .fault .cmd_overrun) ∧
    (∀ (W W' : World) (n : Nat), W'.strerror = W.strerror →
      W'.popen n (cmd1Text ++ key ++ CMD2) = W.popen n (cmd1Text ++ key ++ CMD2) →
      request W' n key = request W n key) := by
  refine ⟨CMD1_eq, command_eq key, ?_, ?_, fun W n h => request_cmd_overrun W n key h,
    fun W W' n hs hp => request_world_congr W W' n key hs hp⟩
  · intro key' h
    rw [command_eq, command_eq, List.append_assoc, List.append_assoc] at h
    exact List.append_cancel_right (List.append_cancel_left h)
  · intro W n hlen
    have hfit : ¬ STRLEN < (cmd1Text ++ key ++ CMD2).length + 1 := by
      rw [← command_eq, command_length]
      simp only [STRLEN]
      omega
    simp only [request, command_eq, hfit, if_false]
    rfl

set_option maxRecDepth 100000 in
theorem command_verbatim_witness :
    quoteKey.length ≤ 53 ∧
    request quoteWorld 0 quoteKey = .value (some "ok".toList) ∧
    request (failAt 0) 0 "Paris".toList =
      .exit { status := 1, report := "Failed to run command\n: Cannot allocate memory\n".toList } ∧
    command "Paris".toList ≠ command "Tokyo".toList :=
  ⟨by decide,
    ((command_verbatim quoteKey).2.2.2.1 quoteWorld 0 (by decide)).trans (by decide),
    ((command_verbatim "Paris".toList).2.2.2.1 (failAt 0) 0 (by decide)).trans (by decide),
    fun h => absurd ((command_verbatim "Tokyo".toList).2.2.1 "Paris".toList h) (by decide)⟩

end CThreads
